import Mathlib

/-!
Verification of a Solana liquidation bot (Kamino lending market).

Shallow embedding of the core pipeline:
  * `src/health.rs`  — `estimate_health`
  * `src/kamino.rs`  — `find_liquidation_candidates`, `build_liquidation_ix`
  * `src/util.rs`    — `build_tx_with_tip`
  * `src/main.rs`    — the orchestrating main loop

Modelling conventions:
  * Solana `Pubkey` values are modelled as `Nat`; `Pubkey::default()` (the
    all-zero key) is `0`.
  * `u64` amounts are `Nat` (the Rust code performs no arithmetic that can
    overflow: the only operation is truncating division by 5).
  * The `f64` arithmetic of `estimate_health` (sums, `* 0.75`, `/`) is
    modelled exactly over `ℚ`, with `+infinity` as a separate constructor,
    mirroring the branch structure of the Rust source.
  * Rust `Result<T>` becomes `Except ε T`; `Option<T>` becomes `Option T`.
  * Rust's `Iterator::max_by_key` returns the LAST maximal element when
    several are equally maximal; `maxByAmountLast` reproduces that fold.
-/

set_option autoImplicit false

namespace Liq

/-- A Solana public key, modelled as a natural number. `Pubkey::default()`
(the all-zero key) is `0`. -/
abbrev Pubkey := Nat

/-- `Pubkey::default()`. -/
def pubkeyDefault : Pubkey := 0

/-- One borrow leg of an obligation (`types::Obligation.borrows` element):
reserve key and amount. -/
structure BorrowLeg where
  reserve : Pubkey
  amount : Nat
deriving DecidableEq, Repr

/-- One deposit leg of an obligation (`types::Obligation.deposits` element):
reserve key and amount. -/
structure DepositLeg where
  reserve : Pubkey
  amount : Nat
deriving DecidableEq, Repr

/-- A decoded lending obligation (`types::Obligation`): the fields the core
reads are the owning market, the owner, and the two leg lists. -/
structure Obligation where
  lending_market : Pubkey
  owner : Pubkey
  borrows : List BorrowLeg
  deposits : List DepositLeg
deriving DecidableEq, Repr

/-- A decoded reserve (`types::Reserve`): consumed only as an opaque lookup
target; `estimate_health` ignores its contents. -/
structure Reserve where
  identity : Pubkey
deriving DecidableEq, Repr

/-- The health estimate: an `f64` that is either a finite ratio or
`f64::INFINITY`. The finite case is modelled exactly over `ℚ`. -/
inductive Health where
  | inf : Health
  | val : ℚ → Health
deriving DecidableEq, Repr

/-- The `f64` comparison `h < 1.0` applied to a health value
(`+infinity < 1.0` is false). -/
def Health.ltOne : Health → Bool
  | .inf => false
  | .val q => decide (q < 1)

/-- `obligation.borrows.iter().map(|b| b.amount as f64).sum::<f64>()`,
modelled exactly over `ℚ`. -/
def totalBorrow (o : Obligation) : ℚ :=
  (o.borrows.map (fun b => (b.amount : ℚ))).sum

/-- `obligation.deposits.iter().map(|d| d.amount as f64).sum::<f64>()`,
modelled exactly over `ℚ`. -/
def totalDeposit (o : Obligation) : ℚ :=
  (o.deposits.map (fun d => (d.amount : ℚ))).sum

/-- `estimate_health` from `src/health.rs`. The `reserves` map and the RPC
handle are parameters the body never reads; the function always returns
`Ok`. -/
def estimate_health (obligation : Obligation) (reserves : List (Pubkey × Reserve)) :
    Except String Health :=
  let _ := reserves
  let total_borrow := totalBorrow obligation
  let total_deposit := totalDeposit obligation
  if total_borrow > 0 ∧ total_deposit = 0 then
    .ok (.val 0)
  else
    let hf : Health :=
      if total_borrow = 0 then .inf
      else .val (total_deposit * (3 / 4 : ℚ) / total_borrow)
    .ok hf

/-! ### Raw accounts and the decoder boundary (`src/kamino.rs` lines 30–41)

The external decoder (`carbon_kamino_lending_decoder`) classifies opaque
account bytes. We model the account data at the level the classification
loop observes: bytes that decode as a reserve, bytes that decode as an
obligation, or bytes matching neither. -/

/-- Raw account data, abstracted to the outcome of the external decoder's
two classification attempts. -/
inductive RawAccount where
  | reserveAcc : Reserve → RawAccount
  | obligationAcc : Obligation → RawAccount
  | otherAcc : RawAccount
deriving DecidableEq, Repr

/-- `decoder.decode_reserve(&acc.data)`: succeeds exactly on reserve bytes. -/
def decode_reserve : RawAccount → Except Unit Reserve
  | .reserveAcc r => .ok r
  | _ => .error ()

/-- `decoder.decode_obligation(&acc.data)`: succeeds exactly on obligation
bytes. -/
def decode_obligation : RawAccount → Except Unit Obligation
  | .obligationAcc o => .ok o
  | _ => .error ()

/-- The classification loop of `find_liquidation_candidates` (lines 30–41):
try reserve first, then obligation, else drop. -/
def classifyAccounts (accs : List (Pubkey × RawAccount)) :
    List (Pubkey × Reserve) × List (Pubkey × Obligation) :=
  accs.foldl
    (fun acc pka =>
      match decode_reserve pka.2 with
      | .ok r => (acc.1 ++ [(pka.1, r)], acc.2)
      | .error _ =>
        match decode_obligation pka.2 with
        | .ok o => (acc.1, acc.2 ++ [(pka.1, o)])
        | .error _ => acc)
    ([], [])

/-! ### Largest-leg selection

Rust's `Iterator::max_by_key` documents: "If several elements are equally
maximum, the last element is returned." Its fold keeps the incumbent only
while the new element's key is strictly smaller. -/

/-- Rust's `Iterator::max_by_key(f)`: the fold keeps the incumbent only
while the new element's key is strictly smaller, so on ties the LATER
element wins (the documented "last element is returned" behaviour). Used by
the source at `|b| b.amount` and `|d| d.amount`. -/
def max_by_key {α : Type} (key : α → Nat) (legs : List α) : Option α :=
  legs.foldl
    (fun acc l =>
      match acc with
      | none => some l
      | some m => if key m ≤ key l then some l else some m)
    none

/-- A liquidation candidate (`LiquidationCandidate` in `src/kamino.rs`). -/
structure LiquidationCandidate where
  obligation : Pubkey
  market : Pubkey
  repay_reserve : Pubkey
  withdraw_reserve : Pubkey
deriving DecidableEq, Repr

/-- The per-obligation body of the candidate loop (lines 51–71 of
`src/kamino.rs`): market filter, health filter, largest-leg selection with
`unwrap_or_default`, and the non-default check. -/
def selectCandidate (market : Pubkey) (reserve_map : List (Pubkey × Reserve))
    (pk : Pubkey) (obl : Obligation) : Option LiquidationCandidate :=
  if obl.lending_market ≠ market then none
  else
    match estimate_health obl reserve_map with
    | .error _ => none
    | .ok h =>
      if h.ltOne then
        let repay_reserve := ((max_by_key BorrowLeg.amount obl.borrows).map BorrowLeg.reserve).getD pubkeyDefault
        let withdraw_reserve := ((max_by_key DepositLeg.amount obl.deposits).map DepositLeg.reserve).getD pubkeyDefault
        if repay_reserve ≠ pubkeyDefault ∧ withdraw_reserve ≠ pubkeyDefault then
          some ⟨pk, market, repay_reserve, withdraw_reserve⟩
        else none
      else none

/-- `find_liquidation_candidates` from `src/kamino.rs`, modelled on the
already-fetched program-account snapshot: classify accounts, index
reserves, then scan obligations in enumeration order pushing candidates. -/
def find_liquidation_candidates (accs : List (Pubkey × RawAccount)) (market : Pubkey) :
    List LiquidationCandidate :=
  let classified := classifyAccounts accs
  let reserve_map := classified.1
  classified.2.foldl
    (fun cands pko =>
      match selectCandidate market reserve_map pko.1 pko.2 with
      | some c => cands ++ [c]
      | none => cands)
    []

/-! ### Instruction building (`build_liquidation_ix`, lines 77–110) -/

/-- Failure modes of `build_liquidation_ix` (the `anyhow` contexts). -/
inductive BuildErr where
  | fetchFailed
  | decodeFailed
  | noBorrows
  | noDeposits
deriving DecidableEq, Repr

/-- The SPL token program id (`spl_token::ID`), an arbitrary fixed non-zero
key in this model. -/
def splTokenId : Pubkey := 997

/-- The account/argument set of one liquidation instruction, as assembled by
`build_liquidation_ix` before delegating to the external builder. -/
structure LiquidationIx where
  lending_market : Pubkey
  obligation : Pubkey
  repay_reserve : Pubkey
  withdraw_reserve : Pubkey
  owner : Pubkey
  token_program : Pubkey
  liquidity_amount : Nat
  min_out : Nat
deriving DecidableEq, Repr

/-- Modelled from the spec: the external decoder's instruction constructor
(`carbon_kamino_lending_decoder::instructions::liquidate_obligation::build`)
is not part of this repository; per §4.5 it packages the given account keys
and arguments into one opaque instruction. -/
def liquidate_obligation_build (accounts_market accounts_obligation accounts_repay
    accounts_withdraw accounts_owner accounts_token : Pubkey)
    (args_liquidity_amount args_min_out : Nat) : Except BuildErr LiquidationIx :=
  .ok ⟨accounts_market, accounts_obligation, accounts_repay, accounts_withdraw,
       accounts_owner, accounts_token, args_liquidity_amount, args_min_out⟩

/-- `build_liquidation_ix` from `src/kamino.rs`: the fresh single-account
fetch is passed in as its outcome (`fresh`), then decode, recompute the
largest borrow and deposit legs, size the repay as `amount / 5`, and
delegate to the external builder with the CANDIDATE's reserve keys. -/
def build_liquidation_ix (fresh : Except BuildErr RawAccount)
    (cand : LiquidationCandidate) : Except BuildErr LiquidationIx :=
  match fresh with
  | .error e => .error e
  | .ok obl_acc =>
    match decode_obligation obl_acc with
    | .error _ => .error BuildErr.decodeFailed
    | .ok obl =>
      match max_by_key BorrowLeg.amount obl.borrows with
      | none => .error BuildErr.noBorrows
      | some largest_borrow =>
        let repay_amount := largest_borrow.amount / 5
        match max_by_key DepositLeg.amount obl.deposits with
        | none => .error BuildErr.noDeposits
        | some _largest_deposit =>
          liquidate_obligation_build cand.market cand.obligation cand.repay_reserve
            cand.withdraw_reserve obl.owner splTokenId repay_amount 0

/-! ### Transaction assembly (`build_tx_with_tip`, `src/util.rs` lines 18–52)

A `Hash` (blockhash/checkpoint) is modelled as `Nat`, with `Hash::default()`
as `0`. An ed25519 signature is a function of the serialized message; since
serialization is injective on messages, we model a signature as the pair of
the signing key and the exact message value it was computed over, and a
signature is valid for a transaction exactly when the message it signed is
the transaction's current message. -/

/-- `Hash::default()`: the all-zero hash that `Message::new` leaves as the
recent blockhash. -/
def hashDefault : Nat := 0

/-- A transaction-level Solana instruction: the compute-budget directives,
the system transfer used for the tip, or the liquidation instruction
wrapped opaquely. -/
inductive SolInstr where
  | computeUnitLimit : Nat → SolInstr
  | computeUnitPrice : Nat → SolInstr
  | transfer : Pubkey → Pubkey → Nat → SolInstr
  | liquidate : LiquidationIx → SolInstr
deriving DecidableEq, Repr

/-- A versioned message: ordered instruction list, fee payer, and recent
blockhash. -/
structure VMessage where
  instructions : List SolInstr
  fee_payer : Pubkey
  recent_blockhash : Nat
deriving DecidableEq, Repr

/-- A signature: the signing key and the message value the signature was
computed over (ed25519 signs the serialized message bytes). -/
structure Sig where
  signer : Pubkey
  signed_message : VMessage
deriving DecidableEq, Repr

/-- Signing a message with a keypair. -/
def signMessage (key : Pubkey) (msg : VMessage) : Sig := ⟨key, msg⟩

/-- A versioned transaction: signatures plus message. -/
structure VersionedTransaction where
  signatures : List Sig
  message : VMessage
deriving DecidableEq, Repr

/-- Every signature of the transaction was computed over the transaction's
CURRENT message (what on-chain signature verification checks). -/
def signatureCoversMessage (tx : VersionedTransaction) : Bool :=
  tx.signatures.all (fun s => decide (s.signed_message = tx.message))

/-- `build_tx_with_tip` from `src/util.rs`: prepend the two compute-budget
directives, append the tip transfer, build a message with the payer as fee
payer (`Message::new` leaves `recent_blockhash = Hash::default()`), sign it
(`VersionedTransaction::try_new`), and only afterwards mutate the message's
recent blockhash (`tx.message.set_recent_blockhash(blockhash)`). -/
def build_tx_with_tip (payer : Pubkey) (blockhash : Nat) (ixs : List SolInstr)
    (cu_limit : Nat) (cu_price : Nat) (tip_account : Pubkey) (tip_lamports : Nat) :
    Except String VersionedTransaction :=
  let budget_ixs := [SolInstr.computeUnitLimit cu_limit, SolInstr.computeUnitPrice cu_price]
  let tip_ix := SolInstr.transfer payer tip_account tip_lamports
  let full_ixs := budget_ixs ++ ixs ++ [tip_ix]
  let msg : VMessage := ⟨full_ixs, payer, hashDefault⟩
  let tx : VersionedTransaction := ⟨[signMessage payer msg], msg⟩
  let tx2 := { tx with message := { tx.message with recent_blockhash := blockhash } }
  .ok tx2

/-! ### The orchestrating main loop (`src/main.rs` lines 93–153)

Each cycle's provider interactions are supplied as a `CycleInput`: the
outcome of the checkpoint fetch, of the bulk snapshot fetch, the fresh
per-obligation account fetch, and the relay's response per obligation. The
loop body is a direct transcription: the two `?` on `fetch_latest_blockhash`
and `find_liquidation_candidates` propagate out of `main`; all per-candidate
failures are logged (`warn!`) and the loop continues. The infinite `loop` is
run on a finite list of cycle inputs; exhausting the list means the process
is still running. -/

/-- The provider failure (`ProviderError` / RPC transport error). -/
inductive ProvErr where
  | providerError
deriving DecidableEq, Repr

/-- The provider-facing inputs of one cycle of the main loop. -/
structure CycleInput where
  blockhash : Except ProvErr Nat
  snapshot : Except ProvErr (List (Pubkey × RawAccount))
  freshAccount : Pubkey → Except BuildErr RawAccount
  sendResult : Pubkey → Except String String

/-- The structured log events of the main loop (`info!` / `warn!` lines). -/
inductive Event where
  | noCandidates
  | dryRunBuilt : Pubkey → Event
  | bundleSubmitted : Pubkey → Event
  | submitFailed : Pubkey → Event
  | buildTxFailed : Pubkey → Event
  | buildIxFailed : Pubkey → Event
deriving DecidableEq, Repr

/-- The process-wide configuration the loop body reads (CLI flags and the
startup-selected tip account). -/
structure BotConfig where
  market : Pubkey
  payer : Pubkey
  cu_limit : Nat
  cu_price : Nat
  tip_account : Pubkey
  tip_lamports : Nat
  dry_run : Bool
  once : Bool

/-- The per-candidate body of the main loop (`src/main.rs` lines 103–147):
build the instruction, assemble the transaction, then either dry-run-log or
submit; every failure is logged and the iteration moves on. -/
def processCandidate (cfg : BotConfig) (cy : CycleInput) (blockhash : Nat)
    (cand : LiquidationCandidate) : Event :=
  match build_liquidation_ix (cy.freshAccount cand.obligation) cand with
  | .ok ix =>
    match build_tx_with_tip cfg.payer blockhash [SolInstr.liquidate ix]
        cfg.cu_limit cfg.cu_price cfg.tip_account cfg.tip_lamports with
    | .ok _vtx =>
      if cfg.dry_run then .dryRunBuilt cand.obligation
      else
        match cy.sendResult cand.obligation with
        | .ok _uuid => .bundleSubmitted cand.obligation
        | .error _ => .submitFailed cand.obligation
    | .error _ => .buildTxFailed cand.obligation
  | .error _ => .buildIxFailed cand.obligation

/-- How a (prefix of a) run of the process ends: `exited` when `main`
returns (`Ok` after `break` in single-pass mode, `Err` when a `?`
propagates), `running` when the supplied cycle inputs are exhausted with
the loop still going. -/
inductive LoopOutcome where
  | exited : Except ProvErr (List Event) → LoopOutcome
  | running : List Event → LoopOutcome
deriving Repr

/-- The main loop of `src/main.rs` (lines 93–153), transcribed cycle by
cycle: `fetch_latest_blockhash(&rpc)?`, `find_liquidation_candidates(..)?`,
the no-candidates log, the per-candidate loop, then `break` when `--once`
or the sleep-and-repeat. -/
def runMainLoop (cfg : BotConfig) (log : List Event) :
    List CycleInput → LoopOutcome
  | [] => .running log
  | cy :: rest =>
    match cy.blockhash with
    | .error e => .exited (.error e)
    | .ok bh =>
      match cy.snapshot with
      | .error e => .exited (.error e)
      | .ok accs =>
        let candidates := find_liquidation_candidates accs cfg.market
        let log := if candidates.isEmpty then log ++ [Event.noCandidates] else log
        let log := log ++ candidates.map (processCandidate cfg cy bh)
        if cfg.once then .exited (.ok log)
        else runMainLoop cfg log rest

/-- A cycle whose checkpoint fetch (`fetch_latest_blockhash`) fails with a
provider error. -/
def failingCheckpointCycle : CycleInput :=
  ⟨.error .providerError, .ok [], fun _ => .error .fetchFailed, fun _ => .error "unreachable"⟩

/-- A benign cycle: checkpoint fetch succeeds and the snapshot is empty. -/
def emptySnapshotCycle : CycleInput :=
  ⟨.ok 7, .ok [], fun _ => .error .fetchFailed, fun _ => .error "unreachable"⟩

/-- A loop-mode configuration: the `--once` flag is off (and so is
`--dry-run`); the other fields are the CLI defaults. -/
def loopModeConfig : BotConfig :=
  ⟨1, 2, 300000, 2000, 3, 5000, false, false⟩

/-! ## Lemmas about `max_by_key` -/

/-- Sums of casted `Nat` amounts are nonnegative. -/
theorem totalBorrow_nonneg (o : Obligation) : 0 ≤ totalBorrow o := by
  unfold totalBorrow
  apply List.sum_nonneg
  intro x hx
  rcases List.mem_map.mp hx with ⟨b, _, rfl⟩
  positivity

theorem totalDeposit_nonneg (o : Obligation) : 0 ≤ totalDeposit o := by
  unfold totalDeposit
  apply List.sum_nonneg
  intro x hx
  rcases List.mem_map.mp hx with ⟨d, _, rfl⟩
  positivity

/-- Once the fold's accumulator holds a value it never returns to `none`. -/
theorem foldl_maxstep_some {α : Type} (key : α → Nat) (xs : List α) (m : α) :
    ∃ r, xs.foldl
      (fun acc l =>
        match acc with
        | none => some l
        | some m => if key m ≤ key l then some l else some m)
      (some m) = some r := by
  induction xs generalizing m with
  | nil => exact ⟨m, rfl⟩
  | cons x xs ih =>
    simp only [List.foldl_cons]
    by_cases h : key m ≤ key x
    · simpa [h] using ih x
    · simpa [h] using ih m

/-- A nonempty list always has a `max_by_key` result. -/
theorem max_by_key_isSome {α : Type} (key : α → Nat) (legs : List α) (h : legs ≠ []) :
    ∃ r, max_by_key key legs = some r := by
  cases legs with
  | nil => exact absurd rfl h
  | cons x xs =>
    unfold max_by_key
    simpa using foldl_maxstep_some key xs x

/-- Only the empty list folds to `none`. -/
theorem max_by_key_eq_none {α : Type} (key : α → Nat) (legs : List α)
    (h : max_by_key key legs = none) : legs = [] := by
  by_contra hne
  obtain ⟨r, hr⟩ := max_by_key_isSome key legs hne
  rw [h] at hr
  exact Option.noConfusion hr

/-- Unfolding `max_by_key` over a snoc. -/
theorem max_by_key_append_singleton {α : Type} (key : α → Nat) (xs : List α) (x : α) :
    max_by_key key (xs ++ [x]) =
      match max_by_key key xs with
      | none => some x
      | some m => if key m ≤ key x then some x else some m := by
  unfold max_by_key
  rw [List.foldl_append]
  rfl

/-- The characterising property of Rust's `max_by_key`: the result is the
LAST maximal element — everything before it in the list has key `≤`, and
everything after it has key strictly `<`. -/
theorem max_by_key_last_max {α : Type} (key : α → Nat) (legs : List α) (m : α)
    (h : max_by_key key legs = some m) :
    ∃ pre suf, legs = pre ++ m :: suf ∧ (∀ l ∈ pre, key l ≤ key m) ∧
      (∀ l ∈ suf, key l < key m) := by
  induction legs using List.reverseRecOn generalizing m with
  | nil => exact Option.noConfusion h
  | append_singleton xs x ih =>
    rw [max_by_key_append_singleton] at h
    cases hxs : max_by_key key xs with
    | none =>
      have hnil := max_by_key_eq_none key xs hxs
      rw [hxs] at h
      simp only [Option.some.injEq] at h
      subst h
      exact ⟨[], [], by simp [hnil], by simp, by simp⟩
    | some n =>
      rw [hxs] at h
      dsimp only at h
      by_cases hle : key n ≤ key x
      · rw [if_pos hle] at h
        simp only [Option.some.injEq] at h
        subst h
        obtain ⟨pre, suf, heq, hpre, hsuf⟩ := ih n hxs
        refine ⟨xs, [], by simp, ?_, by simp⟩
        intro l hl
        rw [heq] at hl
        rcases List.mem_append.mp hl with h1 | h2
        · exact le_trans (hpre l h1) hle
        · rcases List.mem_cons.mp h2 with rfl | h3
          · exact hle
          · exact le_trans (le_of_lt (hsuf l h3)) hle
      · rw [if_neg hle] at h
        simp only [Option.some.injEq] at h
        subst h
        obtain ⟨pre, suf, heq, hpre, hsuf⟩ := ih n hxs
        refine ⟨pre, suf ++ [x], by simp [heq], hpre, ?_⟩
        intro l hl
        rcases List.mem_append.mp hl with h1 | h2
        · exact hsuf l h1
        · rcases List.mem_cons.mp h2 with rfl | h3
          · exact Nat.lt_of_not_le hle
          · exact absurd h3 (List.not_mem_nil l)

/-- Every member is bounded by the fold of `max` over the list. -/
theorem le_foldr_max (a : Nat) (xs : List Nat) (h : a ∈ xs) : a ≤ xs.foldr max 0 := by
  induction xs with
  | nil => exact absurd h (List.not_mem_nil a)
  | cons x xs ih =>
    rcases List.mem_cons.mp h with rfl | h2
    · exact le_max_left _ _
    · exact le_trans (ih h2) (le_max_right _ _)

/-- The fold of `max` is bounded by any common upper bound. -/
theorem foldr_max_le (xs : List Nat) (b : Nat) (h : ∀ a ∈ xs, a ≤ b) :
    xs.foldr max 0 ≤ b := by
  induction xs with
  | nil => exact Nat.zero_le b
  | cons x xs ih =>
    simp only [List.foldr_cons]
    exact max_le (h x (List.mem_cons_self x xs)) (ih fun a ha => h a (List.mem_cons_of_mem x ha))

/-- The key of `max_by_key`'s result is the maximum of the keys. -/
theorem max_by_key_key_eq {α : Type} (key : α → Nat) (legs : List α) (m : α)
    (h : max_by_key key legs = some m) :
    (legs.map key).foldr max 0 = key m := by
  obtain ⟨pre, suf, heq, hpre, hsuf⟩ := max_by_key_last_max key legs m h
  have hmem : m ∈ legs := by rw [heq]; exact List.mem_append_right pre (List.mem_cons_self m suf)
  have hub : ∀ l ∈ legs, key l ≤ key m := by
    intro l hl
    rw [heq] at hl
    rcases List.mem_append.mp hl with h1 | h2
    · exact hpre l h1
    · rcases List.mem_cons.mp h2 with rfl | h3
      · exact le_refl _
      · exact le_of_lt (hsuf l h3)
  apply le_antisymm
  · apply foldr_max_le
    intro a ha
    rcases List.mem_map.mp ha with ⟨l, hl, rfl⟩
    exact hub l hl
  · exact le_foldr_max (key m) _ (List.mem_map_of_mem key hmem)

/-! ## Characterisations of the pipeline stages -/

/-- `estimate_health` is total and its result is the three-way case split of
the spec: `+infinity` on zero total borrow, `0` on positive borrow with zero
deposit, the discounted ratio otherwise. -/
theorem estimate_health_eq (o : Obligation) (reserves : List (Pubkey × Reserve)) :
    estimate_health o reserves =
      .ok (if totalBorrow o = 0 then Health.inf
           else if totalDeposit o = 0 then Health.val 0
           else Health.val (totalDeposit o * (3 / 4 : ℚ) / totalBorrow o)) := by
  unfold estimate_health
  by_cases hb : totalBorrow o = 0
  · simp [hb]
  · have hbpos : 0 < totalBorrow o := lt_of_le_of_ne (totalBorrow_nonneg o) (Ne.symm hb)
    by_cases hd : totalDeposit o = 0
    · simp [hb, hd, hbpos]
    · simp [hb, hd, hbpos]

/-- Inversion of the candidate-selection body: a produced candidate records
the market's key, passes the health filter, and carries exactly the reserve
keys of the `max_by_key` legs, both non-default. -/
theorem selectCandidate_eq_some {market : Pubkey} {rmap : List (Pubkey × Reserve)}
    {pk : Pubkey} {obl : Obligation} {c : LiquidationCandidate}
    (h : selectCandidate market rmap pk obl = some c) :
    obl.lending_market = market ∧
    (∃ hv, estimate_health obl rmap = .ok hv ∧ hv.ltOne = true) ∧
    ∃ b d, max_by_key BorrowLeg.amount obl.borrows = some b ∧
      max_by_key DepositLeg.amount obl.deposits = some d ∧
      b.reserve ≠ pubkeyDefault ∧ d.reserve ≠ pubkeyDefault ∧
      c = ⟨pk, market, b.reserve, d.reserve⟩ := by
  unfold selectCandidate at h
  split at h
  · exact Option.noConfusion h
  next hm =>
    push_neg at hm
    refine ⟨hm, ?_⟩
    split at h
    next heq => exact Option.noConfusion h
    next hv heq =>
      split at h
      next hlt =>
        refine ⟨⟨hv, heq, hlt⟩, ?_⟩
        cases hb : max_by_key BorrowLeg.amount obl.borrows with
        | none =>
          rw [hb] at h
          simp [pubkeyDefault] at h
        | some b =>
          cases hd : max_by_key DepositLeg.amount obl.deposits with
          | none =>
            rw [hb, hd] at h
            simp [pubkeyDefault] at h
          | some d =>
            rw [hb, hd] at h
            simp only [Option.map_some', Option.getD_some] at h
            split at h
            next hcond =>
              simp only [Option.some.injEq] at h
              exact ⟨b, d, rfl, rfl, hcond.1, hcond.2, h.symm⟩
            next hcond => exact Option.noConfusion h
      next hlt => exact Option.noConfusion h

/-- Membership in the candidate-accumulating fold: the element was in the
initial accumulator or produced by some obligation entry. -/
theorem mem_scan_obligations (market : Pubkey) (rmap : List (Pubkey × Reserve))
    (l : List (Pubkey × Obligation)) (init : List LiquidationCandidate)
    (c : LiquidationCandidate)
    (h : c ∈ l.foldl
      (fun cands pko =>
        match selectCandidate market rmap pko.1 pko.2 with
        | some c => cands ++ [c]
        | none => cands) init) :
    c ∈ init ∨ ∃ pko ∈ l, selectCandidate market rmap pko.1 pko.2 = some c := by
  induction l generalizing init with
  | nil => exact Or.inl (by simpa using h)
  | cons x xs ih =>
    simp only [List.foldl_cons] at h
    cases hfx : selectCandidate market rmap x.1 x.2 with
    | some y =>
      rw [hfx] at h
      rcases ih _ h with hin | ⟨z, hz, hfz⟩
      · rcases List.mem_append.mp hin with h1 | h2
        · exact Or.inl h1
        · have hcy : c = y := List.mem_singleton.mp h2
          exact Or.inr ⟨x, List.mem_cons_self x xs, by rw [hfx, hcy]⟩
      · exact Or.inr ⟨z, List.mem_cons_of_mem x hz, hfz⟩
    | none =>
      rw [hfx] at h
      rcases ih _ h with hin | ⟨z, hz, hfz⟩
      · exact Or.inl hin
      · exact Or.inr ⟨z, List.mem_cons_of_mem x hz, hfz⟩

/-- Every emitted candidate comes from some classified obligation through
`selectCandidate`. -/
theorem mem_find_liquidation_candidates {accs : List (Pubkey × RawAccount)}
    {market : Pubkey} {c : LiquidationCandidate}
    (h : c ∈ find_liquidation_candidates accs market) :
    ∃ pko ∈ (classifyAccounts accs).2,
      selectCandidate market (classifyAccounts accs).1 pko.1 pko.2 = some c := by
  unfold find_liquidation_candidates at h
  rcases mem_scan_obligations market (classifyAccounts accs).1
      (classifyAccounts accs).2 [] c h with hin | hex
  · exact absurd hin (List.not_mem_nil c)
  · exact hex

/-- `build_liquidation_ix` on a successfully decoded fresh obligation,
written as the exhaustive case split on the two recomputed legs. -/
theorem build_liquidation_ix_eq (acc : RawAccount) (obl : Obligation)
    (cand : LiquidationCandidate) (hd : decode_obligation acc = .ok obl) :
    build_liquidation_ix (.ok acc) cand =
      match max_by_key BorrowLeg.amount obl.borrows with
      | none => .error BuildErr.noBorrows
      | some b =>
        match max_by_key DepositLeg.amount obl.deposits with
        | none => .error BuildErr.noDeposits
        | some _ => .ok ⟨cand.market, cand.obligation, cand.repay_reserve,
            cand.withdraw_reserve, obl.owner, splTokenId, b.amount / 5, 0⟩ := by
  unfold build_liquidation_ix liquidate_obligation_build
  simp only [hd]

/-! ## Claim theorems -/

/-- C4: for every obligation, the health estimate equals `+infinity` when
the sum of borrow-leg amounts is zero (regardless of deposits); exactly `0`
when the borrow sum is positive and the deposit sum is zero; and
`(deposit sum × 0.75) / borrow sum` when both sums are positive. -/
theorem health_estimate_formula (o : Obligation) (reserves : List (Pubkey × Reserve)) :
    (totalBorrow o = 0 → estimate_health o reserves = .ok Health.inf) ∧
    (0 < totalBorrow o → totalDeposit o = 0 →
      estimate_health o reserves = .ok (Health.val 0)) ∧
    (0 < totalBorrow o → 0 < totalDeposit o →
      estimate_health o reserves =
        .ok (Health.val (totalDeposit o * (3 / 4 : ℚ) / totalBorrow o))) := by
  refine ⟨?_, ?_, ?_⟩
  · intro h1
    rw [estimate_health_eq, if_pos h1]
  · intro h1 h2
    rw [estimate_health_eq, if_neg (ne_of_gt h1), if_pos h2]
  · intro h1 h2
    rw [estimate_health_eq, if_neg (ne_of_gt h1), if_neg (ne_of_gt h2)]

/-- Witness for C4: the three cases at concrete obligations — no borrows
(deposits present), positive borrows with no deposits, and the spec's
1000-borrow/500-deposit scenario. -/
theorem health_estimate_formula_witness :
    estimate_health ⟨1, 2, [], [⟨3, 5⟩]⟩ [] = .ok Health.inf ∧
    estimate_health ⟨1, 2, [⟨3, 4⟩], []⟩ [] = .ok (Health.val 0) ∧
    estimate_health ⟨1, 2, [⟨3, 1000⟩], [⟨4, 500⟩]⟩ [] =
      .ok (Health.val (totalDeposit ⟨1, 2, [⟨3, 1000⟩], [⟨4, 500⟩]⟩ * (3 / 4 : ℚ) /
        totalBorrow ⟨1, 2, [⟨3, 1000⟩], [⟨4, 500⟩]⟩)) :=
  ⟨(health_estimate_formula ⟨1, 2, [], [⟨3, 5⟩]⟩ []).1 (by norm_num [totalBorrow]),
   (health_estimate_formula ⟨1, 2, [⟨3, 4⟩], []⟩ []).2.1
     (by norm_num [totalBorrow]) (by norm_num [totalDeposit]),
   (health_estimate_formula ⟨1, 2, [⟨3, 1000⟩], [⟨4, 500⟩]⟩ []).2.2
     (by norm_num [totalBorrow]) (by norm_num [totalDeposit])⟩

/-- C9: the health estimate is independent of the reserve index argument —
for every obligation and any two reserve maps the result is identical — and
it never returns an error. -/
theorem health_ignores_reserves (o : Obligation) (r r' : List (Pubkey × Reserve)) :
    estimate_health o r = estimate_health o r' ∧
    ∃ h, estimate_health o r = Except.ok h :=
  ⟨rfl, ⟨_, estimate_health_eq o r⟩⟩

/-- C5: the transaction assembler returns a transaction whose instruction
sequence is exactly [compute-unit-limit, compute-unit-price, the caller's
instructions, tip transfer of `tip_lamports` from the signer to the tip
account], with the signer as sole fee-payer (and sole signer). -/
theorem tx_instruction_order (payer blockhash : Nat) (ixs : List SolInstr)
    (cu_limit cu_price tip_account tip_lamports : Nat) :
    ∃ tx, build_tx_with_tip payer blockhash ixs cu_limit cu_price tip_account tip_lamports
        = .ok tx ∧
      tx.message.instructions =
        SolInstr.computeUnitLimit cu_limit :: SolInstr.computeUnitPrice cu_price ::
          (ixs ++ [SolInstr.transfer payer tip_account tip_lamports]) ∧
      tx.message.fee_payer = payer ∧
      ∃ s, tx.signatures = [s] ∧ s.signer = payer :=
  ⟨_, rfl, rfl, rfl, _, rfl, rfl⟩

/-- Counterexample for C6: at payer 1, checkpoint 2, no caller instructions,
the returned transaction's signature does NOT cover its message — stamping
the checkpoint after signing invalidates the signature. -/
theorem tx_stamp_counterexample :
    (build_tx_with_tip 1 2 [] 10 20 3 4).toOption.map signatureCoversMessage
      = some false := rfl

/-- C6 (corrected): the message is signed with exactly one keypair first and
the checkpoint is stamped afterwards, but the signature was computed over
the message with the DEFAULT checkpoint, so the signature covers the
returned message iff the supplied checkpoint equals the default hash. -/
theorem tx_sign_then_stamp (payer blockhash : Nat) (ixs : List SolInstr)
    (cu_limit cu_price tip_account tip_lamports : Nat) :
    ∃ tx, build_tx_with_tip payer blockhash ixs cu_limit cu_price tip_account tip_lamports
        = .ok tx ∧
      tx.signatures = [signMessage payer { tx.message with recent_blockhash := hashDefault }] ∧
      tx.message.recent_blockhash = blockhash ∧
      (signatureCoversMessage tx = true ↔ blockhash = hashDefault) := by
  refine ⟨_, rfl, rfl, rfl, ?_⟩
  simp [signatureCoversMessage, signMessage, build_tx_with_tip, hashDefault, eq_comm]

/-- Counterexample for C2: in loop mode (`--once` off), a failing checkpoint
fetch in the first cycle makes the run exit with the provider error instead
of proceeding to the (supplied) next cycle. -/
theorem cycle_failure_loopmode_counterexample :
    loopModeConfig.once = false ∧
    runMainLoop loopModeConfig [] [failingCheckpointCycle, emptySnapshotCycle]
      = .exited (.error .providerError) :=
  ⟨rfl, rfl⟩

/-- C2 (corrected): a cycle-level provider failure (checkpoint fetch or bulk
snapshot fetch) terminates the process in loop mode as in single-pass mode:
the error propagates out of the top-level loop via `?` and the loop never
reaches the next cycle. -/
theorem cycle_failure_terminates (cfg : BotConfig) (cy : CycleInput)
    (rest : List CycleInput) (log : List Event) (e : ProvErr) :
    (cy.blockhash = .error e → runMainLoop cfg log (cy :: rest) = .exited (.error e)) ∧
    (∀ bh, cy.blockhash = .ok bh → cy.snapshot = .error e →
      runMainLoop cfg log (cy :: rest) = .exited (.error e)) := by
  constructor
  · intro h
    unfold runMainLoop
    rw [h]
  · intro bh h1 h2
    unfold runMainLoop
    rw [h1, h2]

/-- Witness for C2's corrected theorem: both failure points at concrete
cycles in loop mode. -/
theorem cycle_failure_terminates_witness :
    runMainLoop loopModeConfig [] [failingCheckpointCycle]
      = .exited (.error .providerError) ∧
    runMainLoop loopModeConfig []
        [⟨.ok 7, .error .providerError, fun _ => .error .fetchFailed,
          fun _ => .error "unreachable"⟩]
      = .exited (.error .providerError) :=
  ⟨(cycle_failure_terminates loopModeConfig failingCheckpointCycle [] [] .providerError).1 rfl,
   (cycle_failure_terminates loopModeConfig
      ⟨.ok 7, .error .providerError, fun _ => .error .fetchFailed,
        fun _ => .error "unreachable"⟩ [] [] .providerError).2 7 rfl rfl⟩

/-- C7: for every snapshot input, every candidate emitted by the candidate
selector has a repay-reserve key and a withdraw-reserve key both different
from the null/default identity. -/
theorem candidates_nonnull (accs : List (Pubkey × RawAccount)) (market : Pubkey)
    (c : LiquidationCandidate) (h : c ∈ find_liquidation_candidates accs market) :
    c.repay_reserve ≠ pubkeyDefault ∧ c.withdraw_reserve ≠ pubkeyDefault := by
  obtain ⟨pko, _, hsel⟩ := mem_find_liquidation_candidates h
  obtain ⟨_, _, b, d, _, _, hbne, hdne, rfl⟩ := selectCandidate_eq_some hsel
  exact ⟨hbne, hdne⟩

/-- Witness for C7: a concrete snapshot producing one candidate. -/
theorem candidates_nonnull_witness :
    (⟨11, 1, 4, 5⟩ : LiquidationCandidate).repay_reserve ≠ pubkeyDefault ∧
    (⟨11, 1, 4, 5⟩ : LiquidationCandidate).withdraw_reserve ≠ pubkeyDefault :=
  candidates_nonnull [(11, .obligationAcc ⟨1, 8, [⟨4, 6⟩], [⟨5, 6⟩]⟩)] 1 ⟨11, 1, 4, 5⟩
    (by norm_num [find_liquidation_candidates, classifyAccounts, decode_reserve,
      decode_obligation, selectCandidate, estimate_health_eq, totalBorrow, totalDeposit,
      Health.ltOne, max_by_key, pubkeyDefault])

/-- C8: whenever the builder succeeds on a fresh obligation read, the repay
amount placed in the instruction is the fresh largest-borrow amount divided
by 5 with integer truncation. -/
theorem repay_amount_one_fifth (fresh : Except BuildErr RawAccount)
    (cand : LiquidationCandidate) (acc : RawAccount) (obl : Obligation)
    (ix : LiquidationIx) (hacc : fresh = .ok acc)
    (hobl : decode_obligation acc = .ok obl)
    (hix : build_liquidation_ix fresh cand = .ok ix) :
    ix.liquidity_amount = (obl.borrows.map BorrowLeg.amount).foldr max 0 / 5 := by
  subst hacc
  rw [build_liquidation_ix_eq acc obl cand hobl] at hix
  cases hb : max_by_key BorrowLeg.amount obl.borrows with
  | none => rw [hb] at hix; exact Except.noConfusion hix
  | some b =>
    rw [hb] at hix
    cases hdep : max_by_key DepositLeg.amount obl.deposits with
    | none => rw [hdep] at hix; exact Except.noConfusion hix
    | some d =>
      rw [hdep] at hix
      injection hix with hix
      rw [← hix, max_by_key_key_eq BorrowLeg.amount obl.borrows b hb]

/-- Witness for C8: the spec's two repay-sizing examples — a fresh largest
borrow of 1000 yields repay 200, and 7 yields 1. -/
theorem repay_amount_one_fifth_witness :
    build_liquidation_ix (.ok (.obligationAcc ⟨1, 9, [⟨4, 1000⟩], [⟨5, 40⟩]⟩)) ⟨12, 1, 4, 5⟩
        = .ok ⟨1, 12, 4, 5, 9, 997, 200, 0⟩ ∧
    (⟨1, 12, 4, 5, 9, 997, 200, 0⟩ : LiquidationIx).liquidity_amount
        = (([⟨4, 1000⟩] : List BorrowLeg).map BorrowLeg.amount).foldr max 0 / 5 ∧
    build_liquidation_ix (.ok (.obligationAcc ⟨2, 9, [⟨4, 7⟩], [⟨5, 40⟩]⟩)) ⟨12, 2, 4, 5⟩
        = .ok ⟨2, 12, 4, 5, 9, 997, 1, 0⟩ ∧
    (⟨2, 12, 4, 5, 9, 997, 1, 0⟩ : LiquidationIx).liquidity_amount
        = (([⟨4, 7⟩] : List BorrowLeg).map BorrowLeg.amount).foldr max 0 / 5 :=
  ⟨rfl,
   repay_amount_one_fifth (.ok (.obligationAcc ⟨1, 9, [⟨4, 1000⟩], [⟨5, 40⟩]⟩))
     ⟨12, 1, 4, 5⟩ (.obligationAcc ⟨1, 9, [⟨4, 1000⟩], [⟨5, 40⟩]⟩)
     ⟨1, 9, [⟨4, 1000⟩], [⟨5, 40⟩]⟩ ⟨1, 12, 4, 5, 9, 997, 200, 0⟩ rfl rfl rfl,
   rfl,
   repay_amount_one_fifth (.ok (.obligationAcc ⟨2, 9, [⟨4, 7⟩], [⟨5, 40⟩]⟩))
     ⟨12, 2, 4, 5⟩ (.obligationAcc ⟨2, 9, [⟨4, 7⟩], [⟨5, 40⟩]⟩)
     ⟨2, 9, [⟨4, 7⟩], [⟨5, 40⟩]⟩ ⟨2, 12, 4, 5, 9, 997, 1, 0⟩ rfl rfl rfl⟩

/-- C10: when the fresh largest-borrow amount is between 1 and 4 and both
fresh leg lists are nonempty, the builder does not fail: it constructs an
instruction whose repay amount is 0 (truncating division by 5, no lower
bound enforced). -/
theorem small_borrow_builds_zero_repay (acc : RawAccount) (obl : Obligation)
    (cand : LiquidationCandidate) (hobl : decode_obligation acc = .ok obl)
    (hb : obl.borrows ≠ []) (hd : obl.deposits ≠ [])
    (h1 : 1 ≤ (obl.borrows.map BorrowLeg.amount).foldr max 0)
    (h4 : (obl.borrows.map BorrowLeg.amount).foldr max 0 ≤ 4) :
    ∃ ix, build_liquidation_ix (.ok acc) cand = .ok ix ∧ ix.liquidity_amount = 0 := by
  obtain ⟨b, hbm⟩ := max_by_key_isSome BorrowLeg.amount obl.borrows hb
  obtain ⟨d, hdm⟩ := max_by_key_isSome DepositLeg.amount obl.deposits hd
  refine ⟨⟨cand.market, cand.obligation, cand.repay_reserve, cand.withdraw_reserve,
      obl.owner, splTokenId, b.amount / 5, 0⟩, ?_, ?_⟩
  · rw [build_liquidation_ix_eq acc obl cand hobl, hbm, hdm]
  · have hkey := max_by_key_key_eq BorrowLeg.amount obl.borrows b hbm
    have hle : b.amount ≤ 4 := hkey ▸ h4
    exact Nat.div_eq_of_lt (lt_of_le_of_lt hle (by norm_num))

/-- Witness for C10: a fresh largest-borrow amount of 3 builds an
instruction with repay amount 0. -/
theorem small_borrow_builds_zero_repay_witness :
    ∃ ix, build_liquidation_ix (.ok (.obligationAcc ⟨1, 9, [⟨4, 3⟩], [⟨5, 6⟩]⟩))
        ⟨13, 1, 4, 5⟩ = .ok ix ∧ ix.liquidity_amount = 0 :=
  small_borrow_builds_zero_repay (.obligationAcc ⟨1, 9, [⟨4, 3⟩], [⟨5, 6⟩]⟩)
    ⟨1, 9, [⟨4, 3⟩], [⟨5, 6⟩]⟩ ⟨13, 1, 4, 5⟩ rfl (by decide) (by decide)
    (by decide) (by decide)

/-- Counterexample for C1: an obligation whose two borrow legs have the
SAME maximal amount 10; the first such leg is reserve 1, yet the emitted
candidate's repay-reserve is 2 — the LAST maximal leg, because Rust's
`max_by_key` returns the last of equally-maximal elements. -/
theorem tiebreak_first_max_counterexample :
    (find_liquidation_candidates
        [(10, RawAccount.obligationAcc ⟨1, 9, [⟨1, 10⟩, ⟨2, 10⟩], [⟨3, 5⟩]⟩)] 1).map
      LiquidationCandidate.repay_reserve = [2] ∧ (2 : Pubkey) ≠ 1 := by
  constructor
  · norm_num [find_liquidation_candidates, classifyAccounts, decode_reserve,
      decode_obligation, selectCandidate, estimate_health_eq, totalBorrow, totalDeposit,
      Health.ltOne, max_by_key, pubkeyDefault]
  · decide

/-- C1 (corrected): in candidate selection, the selected repay-reserve
(resp. withdraw-reserve) is the reserve key of the LAST borrow (resp.
deposit) leg with maximal amount in original list order — every earlier leg
has amount `≤` it and every later leg has amount strictly `<` it; in
instruction building, the recomputed largest borrow leg that sizes the
repay amount is likewise the last maximal leg. Selection is a pure function
of its input, hence reproducible on identical input. -/
theorem tiebreak_last_max :
    (∀ (market : Pubkey) (rmap : List (Pubkey × Reserve)) (pk : Pubkey)
       (obl : Obligation) (c : LiquidationCandidate),
       selectCandidate market rmap pk obl = some c →
       (∃ pre m suf, obl.borrows = pre ++ m :: suf ∧ c.repay_reserve = m.reserve ∧
          (∀ l ∈ pre, l.amount ≤ m.amount) ∧ (∀ l ∈ suf, l.amount < m.amount)) ∧
       (∃ pre m suf, obl.deposits = pre ++ m :: suf ∧ c.withdraw_reserve = m.reserve ∧
          (∀ l ∈ pre, l.amount ≤ m.amount) ∧ (∀ l ∈ suf, l.amount < m.amount))) ∧
    (∀ (acc : RawAccount) (obl : Obligation) (cand : LiquidationCandidate)
       (ix : LiquidationIx), decode_obligation acc = .ok obl →
       build_liquidation_ix (.ok acc) cand = .ok ix →
       ∃ pre m suf, obl.borrows = pre ++ m :: suf ∧ ix.liquidity_amount = m.amount / 5 ∧
         (∀ l ∈ pre, l.amount ≤ m.amount) ∧ (∀ l ∈ suf, l.amount < m.amount)) := by
  constructor
  · intro market rmap pk obl c hsel
    obtain ⟨_, _, b, d, hbm, hdm, _, _, rfl⟩ := selectCandidate_eq_some hsel
    constructor
    · obtain ⟨pre, suf, heq, hpre, hsuf⟩ := max_by_key_last_max BorrowLeg.amount obl.borrows b hbm
      exact ⟨pre, b, suf, heq, rfl, hpre, hsuf⟩
    · obtain ⟨pre, suf, heq, hpre, hsuf⟩ := max_by_key_last_max DepositLeg.amount obl.deposits d hdm
      exact ⟨pre, d, suf, heq, rfl, hpre, hsuf⟩
  · intro acc obl cand ix hobl hix
    rw [build_liquidation_ix_eq acc obl cand hobl] at hix
    cases hbm : max_by_key BorrowLeg.amount obl.borrows with
    | none => rw [hbm] at hix; exact Except.noConfusion hix
    | some b =>
      rw [hbm] at hix
      cases hdm : max_by_key DepositLeg.amount obl.deposits with
      | none => rw [hdm] at hix; exact Except.noConfusion hix
      | some d =>
        rw [hdm] at hix
        injection hix with hix
        obtain ⟨pre, suf, heq, hpre, hsuf⟩ := max_by_key_last_max BorrowLeg.amount obl.borrows b hbm
        exact ⟨pre, b, suf, heq, by rw [← hix], hpre, hsuf⟩

/-- Witness for C1's corrected theorem: the tied-legs snapshot (selection
picks the last maximal borrow leg) and a tied fresh read at build time
(repay sized from the last maximal leg's amount). -/
theorem tiebreak_last_max_witness :
    ((∃ pre m suf, ([⟨1, 10⟩, ⟨2, 10⟩] : List BorrowLeg) = pre ++ m :: suf ∧
        (⟨10, 1, 2, 3⟩ : LiquidationCandidate).repay_reserve = m.reserve ∧
        (∀ l ∈ pre, l.amount ≤ m.amount) ∧ (∀ l ∈ suf, l.amount < m.amount)) ∧
     (∃ pre m suf, ([⟨3, 5⟩] : List DepositLeg) = pre ++ m :: suf ∧
        (⟨10, 1, 2, 3⟩ : LiquidationCandidate).withdraw_reserve = m.reserve ∧
        (∀ l ∈ pre, l.amount ≤ m.amount) ∧ (∀ l ∈ suf, l.amount < m.amount))) ∧
    (∃ pre m suf, ([⟨6, 20⟩, ⟨7, 20⟩] : List BorrowLeg) = pre ++ m :: suf ∧
       (⟨1, 14, 8, 9, 11, 997, 4, 0⟩ : LiquidationIx).liquidity_amount = m.amount / 5 ∧
       (∀ l ∈ pre, l.amount ≤ m.amount) ∧ (∀ l ∈ suf, l.amount < m.amount)) :=
  ⟨tiebreak_last_max.1 1 [] 10 ⟨1, 9, [⟨1, 10⟩, ⟨2, 10⟩], [⟨3, 5⟩]⟩ ⟨10, 1, 2, 3⟩
     (by norm_num [selectCandidate, estimate_health_eq, totalBorrow, totalDeposit,
       Health.ltOne, max_by_key, pubkeyDefault]),
   tiebreak_last_max.2 (.obligationAcc ⟨1, 11, [⟨6, 20⟩, ⟨7, 20⟩], [⟨8, 30⟩]⟩)
     ⟨1, 11, [⟨6, 20⟩, ⟨7, 20⟩], [⟨8, 30⟩]⟩ ⟨14, 1, 8, 9⟩ ⟨1, 14, 8, 9, 11, 997, 4, 0⟩
     rfl rfl⟩

/-- Counterexample for C3: the fresh read's only borrow leg is reserve 7
and its only deposit leg is reserve 8, yet the built instruction carries
the candidate's keys 5 and 6 — the reserve keys actually placed in the
instruction are NOT recomputed from the fresh read. -/
theorem builder_candidate_keys_counterexample :
    build_liquidation_ix (.ok (.obligationAcc ⟨1, 9, [⟨7, 100⟩], [⟨8, 50⟩]⟩)) ⟨10, 1, 5, 6⟩
        = .ok ⟨1, 10, 5, 6, 9, 997, 20, 0⟩ ∧
    (5 : Pubkey) ≠ 7 ∧ (6 : Pubkey) ≠ 8 :=
  ⟨rfl, by decide, by decide⟩

/-- C3 (corrected): the builder recomputes the legs from the fresh read
only for the emptiness checks and the repay amount — it fails with the
no-borrows (resp. no-deposits) error whenever the fresh borrow (resp.
deposit) list is empty, and sizes the repay from the fresh largest borrow —
but the repay-reserve and withdraw-reserve keys placed in the instruction
are taken from the candidate, not recomputed from the fresh read. -/
theorem builder_recompute_and_errors (acc : RawAccount) (obl : Obligation)
    (cand : LiquidationCandidate) (hobl : decode_obligation acc = .ok obl) :
    (obl.borrows = [] → build_liquidation_ix (.ok acc) cand = .error BuildErr.noBorrows) ∧
    (obl.borrows ≠ [] → obl.deposits = [] →
      build_liquidation_ix (.ok acc) cand = .error BuildErr.noDeposits) ∧
    (∀ ix, build_liquidation_ix (.ok acc) cand = .ok ix →
      ix.repay_reserve = cand.repay_reserve ∧
      ix.withdraw_reserve = cand.withdraw_reserve ∧
      ∃ b, max_by_key BorrowLeg.amount obl.borrows = some b ∧
        ix.liquidity_amount = b.amount / 5) := by
  refine ⟨?_, ?_, ?_⟩
  · intro hb
    rw [build_liquidation_ix_eq acc obl cand hobl, hb]
    rfl
  · intro hb hd
    obtain ⟨b, hbm⟩ := max_by_key_isSome BorrowLeg.amount obl.borrows hb
    rw [build_liquidation_ix_eq acc obl cand hobl, hbm, hd]
    rfl
  · intro ix hix
    rw [build_liquidation_ix_eq acc obl cand hobl] at hix
    cases hbm : max_by_key BorrowLeg.amount obl.borrows with
    | none => rw [hbm] at hix; exact Except.noConfusion hix
    | some b =>
      rw [hbm] at hix
      cases hdm : max_by_key DepositLeg.amount obl.deposits with
      | none => rw [hdm] at hix; exact Except.noConfusion hix
      | some d =>
        rw [hdm] at hix
        injection hix with hix
        exact ⟨by rw [← hix], by rw [← hix], b, rfl, by rw [← hix]⟩

/-- Witness for C3's corrected theorem: the three cases at concrete fresh
reads — empty borrows, empty deposits, and a successful build whose
instruction keys are the candidate's. -/
theorem builder_recompute_and_errors_witness :
    build_liquidation_ix (.ok (.obligationAcc ⟨1, 9, [], [⟨3, 5⟩]⟩)) ⟨10, 1, 4, 5⟩
        = .error BuildErr.noBorrows ∧
    build_liquidation_ix (.ok (.obligationAcc ⟨1, 9, [⟨3, 5⟩], []⟩)) ⟨10, 1, 4, 5⟩
        = .error BuildErr.noDeposits ∧
    ((⟨1, 10, 4, 5, 9, 997, 1, 0⟩ : LiquidationIx).repay_reserve
        = (⟨10, 1, 4, 5⟩ : LiquidationCandidate).repay_reserve ∧
     (⟨1, 10, 4, 5, 9, 997, 1, 0⟩ : LiquidationIx).withdraw_reserve
        = (⟨10, 1, 4, 5⟩ : LiquidationCandidate).withdraw_reserve ∧
     ∃ b, max_by_key BorrowLeg.amount ([⟨3, 5⟩] : List BorrowLeg) = some b ∧
       (⟨1, 10, 4, 5, 9, 997, 1, 0⟩ : LiquidationIx).liquidity_amount = b.amount / 5) :=
  ⟨(builder_recompute_and_errors (.obligationAcc ⟨1, 9, [], [⟨3, 5⟩]⟩)
      ⟨1, 9, [], [⟨3, 5⟩]⟩ ⟨10, 1, 4, 5⟩ rfl).1 rfl,
   (builder_recompute_and_errors (.obligationAcc ⟨1, 9, [⟨3, 5⟩], []⟩)
      ⟨1, 9, [⟨3, 5⟩], []⟩ ⟨10, 1, 4, 5⟩ rfl).2.1 (by decide) rfl,
   (builder_recompute_and_errors (.obligationAcc ⟨1, 9, [⟨3, 5⟩], [⟨6, 2⟩]⟩)
      ⟨1, 9, [⟨3, 5⟩], [⟨6, 2⟩]⟩ ⟨10, 1, 4, 5⟩ rfl).2.2
     ⟨1, 10, 4, 5, 9, 997, 1, 0⟩ rfl⟩

end Liq
